import Mathlib

/-!
Shallow embedding of the S3Service class (src/src/s3/s3.service.ts).

The class wraps an AWS S3 client with four operations: uploadToS3, getFromS3
(text download), getFromS3AsBinary, and getMostRecentFile.  The remote store
is modelled as an association list from (bucket, key) pairs to stored objects;
the network round trip of each operation is modelled by an explicit outcome
value (success with a response, or rejection with an error message), mirroring
the fact that the TypeScript code only observes the resolved value or the
rejection of the single send call it performs.
-/

namespace S3Service

/-- Byte sequences (Buffer / Uint8Array contents); each entry is one byte. -/
abbrev Bytes := List Nat

/-- An object stored in S3: its body bytes and the content type recorded at
upload time (the Body and ContentType fields of the PutObjectCommand input). -/
structure StoredObject where
  body : Bytes
  contentType : String
deriving DecidableEq

/-- The remote store: a history of writes, most recent first, keyed by
(bucket, key). -/
abbrev Store := List ((String × String) × StoredObject)

/-- Write an object at (bucket, key): the put performed by a successful
PutObjectCommand send. -/
def storePut (st : Store) (bucketName filePath : String) (o : StoredObject) : Store :=
  ((bucketName, filePath), o) :: st

/-- Read the current object at (bucket, key), if any. -/
def storeGet (st : Store) (bucketName filePath : String) : Option StoredObject :=
  (st.find? (fun e => e.1 == (bucketName, filePath))).map (fun e => e.2)

/-- The current body bytes at (bucket, key), if an object exists there. -/
def storeGetBytes (st : Store) (bucketName filePath : String) : Option Bytes :=
  (storeGet st bucketName filePath).map StoredObject.body

/-- Outcome of the s3Client.send of a PutObjectCommand: the promise either
resolves (the put is applied by the store) or rejects with error.message.
S3 applies a put atomically, so a rejected send leaves the store unchanged. -/
inductive PutOutcome where
  | ok
  | err (msg : String)

/-- uploadToS3(bucketName, filePath, data, mimeType): builds a PutObjectCommand
and awaits s3Client.send inside a try/catch.  On success the send has written
the object and the SDK response is returned; on rejection the method throws
new Error with the cause message interpolated after the fixed text.  The
returned pair is (store after the call, returned/thrown result). -/
def uploadToS3 (outcome : PutOutcome) (st : Store) (bucketName filePath : String)
    (data : Bytes) (mimeType : String) : Store × Except String Unit :=
  match outcome with
  | .ok => (storePut st bucketName filePath ⟨data, mimeType⟩, Except.ok ())
  | .err msg => (st, Except.error ("Error uploading to S3: " ++ msg))

/-- The Body field of a GetObjectCommandOutput as the code inspects it: either
a Readable stream delivering a list of chunks, or some other shape (the
instanceof Readable test fails). -/
inductive GetBody where
  | readable (chunks : List Bytes)
  | notReadable

/-- Outcome of the s3Client.send of a GetObjectCommand: a response carrying a
body, or a rejection with error.message. -/
inductive GetOutcome where
  | respond (body : GetBody)
  | fail (msg : String)

/-- Outcome of the s3Client.send of a ListObjectsV2Command: a response whose
Contents field is absent or a list of entries (modelled by their Key strings,
which the code asserts non-null), or a rejection with the listing error. -/
inductive ListOutcome where
  | respond (contents : Option (List String))
  | fail (msg : String)

/-- The UTF-8 replacement character U+FFFD, substituted by Buffer.toString for
bytes that do not form a valid UTF-8 sequence. -/
def replacementChar : Char := Char.ofNat 0xFFFD

/-- Whether a byte is a UTF-8 continuation byte (10xxxxxx). -/
def isCont (b : Nat) : Bool := 0x80 ≤ b && b < 0xC0

/-- UTF-8 encoding of a single character, per the standard scheme. -/
def utf8EncodeChar (c : Char) : Bytes :=
  let n := c.toNat
  if n < 0x80 then [n]
  else if n < 0x800 then [0xC0 + n / 64, 0x80 + n % 64]
  else if n < 0x10000 then [0xE0 + n / 4096, 0x80 + n / 64 % 64, 0x80 + n % 64]
  else [0xF0 + n / 262144, 0x80 + n / 4096 % 64, 0x80 + n / 64 % 64, 0x80 + n % 64]

/-- UTF-8 encoding of a string. -/
def utf8Encode (s : String) : Bytes := (s.data.map utf8EncodeChar).flatten

/-- Fuel-indexed UTF-8 decoding loop.  Each step consumes at least one byte,
so fuel equal to the byte count suffices.  Valid sequences decode to their
code point; malformed input (stray continuation bytes, overlong forms,
surrogate code points, out-of-range values, truncated sequences) yields the
replacement character, as Buffer.toString with utf-8 does. -/
def utf8DecodeGo : Nat → Bytes → List Char
  | 0, _ => []
  | _ + 1, [] => []
  | fuel + 1, b0 :: rest =>
    if b0 < 0x80 then Char.ofNat b0 :: utf8DecodeGo fuel rest
    else if b0 < 0xC2 then replacementChar :: utf8DecodeGo fuel rest
    else if b0 < 0xE0 then
      match rest with
      | b1 :: rest1 =>
        if isCont b1 then
          Char.ofNat ((b0 - 0xC0) * 64 + (b1 - 0x80)) :: utf8DecodeGo fuel rest1
        else replacementChar :: utf8DecodeGo fuel rest
      | [] => [replacementChar]
    else if b0 < 0xF0 then
      match rest with
      | b1 :: b2 :: rest2 =>
        if isCont b1 && isCont b2 then
          let n := (b0 - 0xE0) * 4096 + (b1 - 0x80) * 64 + (b2 - 0x80)
          if n < 0x800 || (0xD800 ≤ n && n < 0xE000) then
            replacementChar :: utf8DecodeGo fuel rest2
          else Char.ofNat n :: utf8DecodeGo fuel rest2
        else replacementChar :: utf8DecodeGo fuel rest
      | _ => [replacementChar]
    else if b0 < 0xF5 then
      match rest with
      | b1 :: b2 :: b3 :: rest3 =>
        if isCont b1 && isCont b2 && isCont b3 then
          let n := (b0 - 0xF0) * 262144 + (b1 - 0x80) * 4096 + (b2 - 0x80) * 64 + (b3 - 0x80)
          if n < 0x10000 || 0x110000 ≤ n then
            replacementChar :: utf8DecodeGo fuel rest3
          else Char.ofNat n :: utf8DecodeGo fuel rest3
        else replacementChar :: utf8DecodeGo fuel rest
      | _ => [replacementChar]
    else replacementChar :: utf8DecodeGo fuel rest

/-- UTF-8 decoding of a byte sequence: Buffer.toString with encoding utf-8. -/
def utf8Decode (bs : Bytes) : String := String.mk (utf8DecodeGo bs.length bs)

/-- getFromS3(bucketName, filePath): awaits the GetObjectCommand send inside a
try/catch.  If the response Body is a Readable, all chunks are drained,
concatenated and decoded as UTF-8.  Otherwise the method throws inside the
try block, and the catch rewraps that error (and any send rejection) with the
fixed text followed by the cause message. -/
def getFromS3 (outcome : GetOutcome) : Except String String :=
  match outcome with
  | .respond (.readable chunks) => Except.ok (utf8Decode chunks.flatten)
  | .respond .notReadable =>
      Except.error ("Error retrieving from S3: " ++ "Unexpected response body type")
  | .fail msg => Except.error ("Error retrieving from S3: " ++ msg)

/-- getFromS3AsBinary(bucketName, filePath): identical to getFromS3 except the
concatenated Buffer is returned without decoding. -/
def getFromS3AsBinary (outcome : GetOutcome) : Except String Bytes :=
  match outcome with
  | .respond (.readable chunks) => Except.ok chunks.flatten
  | .respond .notReadable =>
      Except.error ("Error retrieving from S3: " ++ "Unexpected response body type")
  | .fail msg => Except.error ("Error retrieving from S3: " ++ msg)

/-- Normalisation of one slice endpoint, per the ECMAScript specification of
String.prototype.slice: a negative index counts from the end, and the result
is clamped to the interval from 0 to the length. -/
def jsSliceIndex (len : Nat) (i : Int) : Int :=
  if i < 0 then max ((len : Int) + i) 0 else min i (len : Int)

/-- JavaScript String.prototype.slice with two integer arguments: the
substring from the normalised start up to the normalised end (empty when the
start is not below the end). -/
def jsSlice (s : String) (intStart intEnd : Int) : String :=
  String.mk ((s.data.drop (jsSliceIndex s.length intStart).toNat).take
    (max (jsSliceIndex s.length intEnd - jsSliceIndex s.length intStart) 0).toNat)

/-- Whether a year is a leap year (Gregorian rule). -/
def isLeapYear (y : Nat) : Bool := y % 4 == 0 && (y % 100 != 0 || y % 400 == 0)

/-- Number of days in a month of a given year. -/
def daysInMonth (y m : Nat) : Nat :=
  if m == 2 then (if isLeapYear y then 29 else 28)
  else if m == 4 || m == 6 || m == 9 || m == 11 then 30
  else 31

/-- Numeric value of a decimal digit character, none otherwise. -/
def digitVal (c : Char) : Option Nat :=
  if c.isDigit then some (c.toNat - 48) else none

/-- The JavaScript Date constructor applied to a string, as observed through
getTime(): some value for a ten-character YYYY-MM-DD date-only form naming a
valid calendar date (parsed as UTC), none for an Invalid Date (getTime NaN).
Only differences of getTime values are compared by the code, so the timestamp
is represented by the order-isomorphic encoding (year * 12 + month - 1) * 31
+ day - 1, which is strictly increasing in (year, month, day) exactly as the
UTC millisecond timestamp is on valid calendar dates. -/
def parseJsDate (s : String) : Option Nat :=
  match s.data with
  | [y1, y2, y3, y4, h1, m1, m2, h2, d1, d2] =>
    if h1 = '-' && h2 = '-' then
      match digitVal y1, digitVal y2, digitVal y3, digitVal y4,
          digitVal m1, digitVal m2, digitVal d1, digitVal d2 with
      | some a, some b, some c, some d, some e, some f, some g, some h =>
        let y := ((a * 10 + b) * 10 + c) * 10 + d
        let m := e * 10 + f
        let dd := g * 10 + h
        if 1 ≤ m && m ≤ 12 && 1 ≤ dd && dd ≤ daysInMonth y m then
          some ((y * 12 + (m - 1)) * 31 + (dd - 1))
        else none
      | _, _, _, _, _, _, _, _ => none
    else none
  | _ => none

/-- key.includes(the underscore character): whether a key contains it. -/
def keyHasUnderscore (k : String) : Bool := k.data.contains '_'

/-- The date token the sort comparator extracts from a key: key.slice(-14, -4). -/
def dateSliceStr (k : String) : String := jsSlice k (-14) (-4)

/-- The parsed sort date of a key: new Date(key.slice(-14, -4)), through
getTime(); none stands for NaN. -/
def keyDate (k : String) : Option Nat := parseJsDate (dateSliceStr k)

/-- The sort comparator (a, b) => dateB.getTime() - dateA.getTime().  When
either getTime() is NaN the subtraction is NaN, which Array.prototype.sort
treats as 0 (the comparator result is coerced, and NaN becomes +0). -/
def compareByDate (a b : String) : Int :=
  match keyDate a, keyDate b with
  | some dateA, some dateB => (dateB : Int) - (dateA : Int)
  | _, _ => 0

/-- Insertion step of a stable comparator sort: x came earlier in the input
than every element of the already-sorted list, so x is placed before the
first element y with cmp x y ≤ 0 and after every earlier one. -/
def jsInsert {α : Type} (cmp : α → α → Int) (x : α) : List α → List α
  | [] => [x]
  | y :: ys => if cmp x y ≤ 0 then x :: y :: ys else y :: jsInsert cmp x ys

/-- Array.prototype.sort with a comparator: sorts ascending by the comparator
and is stable (ES2019), modelled as stable insertion sort, which produces the
unique stable order for a consistent comparator. -/
def jsSort {α : Type} (cmp : α → α → Int) : List α → List α
  | [] => []
  | x :: xs => jsInsert cmp x (jsSort cmp xs)

/-- getMostRecentFile(bucketName, prefix): sends a ListObjectsV2Command with
the given bucket and key prefix (both only shape the request, which the
listing outcome models) with no try/catch, so a rejected send propagates
unmodified.  On a response it returns undefined when Contents is absent or
empty; otherwise it keeps the keys containing an underscore, sorts them with
compareByDate, and returns the first sorted key (undefined when none remain). -/
def getMostRecentFile (outcome : ListOutcome) : Except String (Option String) :=
  match outcome with
  | .fail msg => Except.error msg
  | .respond none => Except.ok none
  | .respond (some contents) =>
    if contents.length = 0 then Except.ok none
    else
      let files : List String := contents.filter keyHasUnderscore
      let sortedFiles : List String := jsSort compareByDate files
      Except.ok sortedFiles.head?

/-- Spec-side selector: the first element of a list attaining the maximal
value of v, or none for the empty list.  Used to state what a stable
descending sort puts first. -/
def firstMaxBy {α : Type} (v : α → Nat) : List α → Option α
  | [] => none
  | x :: xs =>
    match firstMaxBy v xs with
    | none => some x
    | some y => if v y > v x then some y else some x

/-- The sort value of a key with a valid parsed date (0 for NaN keys; only
applied where keyDate is some). -/
def dv (k : String) : Nat := (keyDate k).getD 0


/-- Unfolding equation: inserting into the empty list. -/
theorem jsInsert_nil {α : Type} (cmp : α → α → Int) (x : α) : jsInsert cmp x [] = [x] := rfl

/-- Unfolding equation: inserting into a non-empty list. -/
theorem jsInsert_cons {α : Type} (cmp : α → α → Int) (x y : α) (ys : List α) :
    jsInsert cmp x (y :: ys) =
      if cmp x y ≤ 0 then x :: y :: ys else y :: jsInsert cmp x ys := rfl

/-- Unfolding equation: the first maximum of a non-empty list. -/
theorem firstMaxBy_cons {α : Type} (v : α → Nat) (x : α) (xs : List α) :
    firstMaxBy v (x :: xs) =
      match firstMaxBy v xs with
      | none => some x
      | some y => if v y > v x then some y else some x := rfl

/-- Inserting into a list grows its length by one. -/
theorem jsInsert_length {α : Type} (cmp : α → α → Int) (x : α) (l : List α) :
    (jsInsert cmp x l).length = l.length + 1 := by
  induction l with
  | nil => rfl
  | cons y ys ih =>
    rw [jsInsert_cons]
    by_cases h : cmp x y ≤ 0
    · rw [if_pos h]
      rfl
    · rw [if_neg h, List.length_cons, List.length_cons, ih]

/-- The modelled sort preserves length. -/
theorem jsSort_length {α : Type} (cmp : α → α → Int) (l : List α) :
    (jsSort cmp l).length = l.length := by
  induction l with
  | nil => rfl
  | cons x xs ih =>
    show (jsInsert cmp x (jsSort cmp xs)).length = (x :: xs).length
    rw [jsInsert_length, ih, List.length_cons]

/-- Membership in an insertion step. -/
theorem mem_jsInsert {α : Type} (cmp : α → α → Int) (x a : α) (l : List α) :
    a ∈ jsInsert cmp x l ↔ a = x ∨ a ∈ l := by
  induction l with
  | nil =>
    rw [jsInsert_nil]
    simp
  | cons y ys ih =>
    rw [jsInsert_cons]
    by_cases h : cmp x y ≤ 0
    · rw [if_pos h]
      simp [List.mem_cons]
    · rw [if_neg h]
      rw [List.mem_cons, ih, List.mem_cons]
      tauto

/-- The modelled sort preserves membership. -/
theorem mem_jsSort {α : Type} (cmp : α → α → Int) (a : α) (l : List α) :
    a ∈ jsSort cmp l ↔ a ∈ l := by
  induction l with
  | nil => simp [jsSort]
  | cons x xs ih =>
    show a ∈ jsInsert cmp x (jsSort cmp xs) ↔ a ∈ x :: xs
    rw [mem_jsInsert, ih, List.mem_cons]

/-- A first maximum, when it exists, belongs to the list. -/
theorem firstMaxBy_mem {α : Type} (v : α → Nat) (l : List α) (y : α)
    (h : firstMaxBy v l = some y) : y ∈ l := by
  induction l with
  | nil => cases h
  | cons x xs ih =>
    rw [firstMaxBy_cons] at h
    cases hxs : firstMaxBy v xs with
    | none =>
      rw [hxs] at h
      have h' : some x = some y := h
      have hxy : x = y := Option.some.inj h'
      subst hxy
      exact List.mem_cons_self x xs
    | some z =>
      rw [hxs] at h
      have h' : (if v z > v x then some z else some x) = some y := h
      by_cases hz : v z > v x
      · rw [if_pos hz] at h'
        have hzy : z = y := Option.some.inj h'
        subst hzy
        exact List.mem_cons_of_mem x (ih hxs)
      · rw [if_neg hz] at h'
        have hxy : x = y := Option.some.inj h'
        subst hxy
        exact List.mem_cons_self x xs

/-- When all keys carry a valid parsed date, the head of the sorted list is
the first listed key attaining the maximal date: the comparator orders
strictly by date descending and leaves ties in listing order (stability). -/
theorem jsSort_head_eq_firstMaxBy (l : List String)
    (hv : ∀ a ∈ l, (keyDate a).isSome = true) :
    (jsSort compareByDate l).head? = firstMaxBy dv l := by
  induction l with
  | nil => rfl
  | cons x xs ih =>
    have hx : (keyDate x).isSome = true := hv x (List.mem_cons_self x xs)
    have hvxs : ∀ a ∈ xs, (keyDate a).isSome = true :=
      fun a ha => hv a (List.mem_cons_of_mem x ha)
    have ih' := ih hvxs
    show (jsInsert compareByDate x (jsSort compareByDate xs)).head? = firstMaxBy dv (x :: xs)
    cases hsort : jsSort compareByDate xs with
    | nil =>
      have hxs : xs = [] := by
        have hl := jsSort_length compareByDate xs
        rw [hsort] at hl
        exact List.length_eq_zero.mp hl.symm
      subst hxs
      rfl
    | cons y ys =>
      have hy : y ∈ xs := by
        have hmem : y ∈ jsSort compareByDate xs := by
          rw [hsort]
          exact List.mem_cons_self y ys
        exact (mem_jsSort compareByDate y xs).mp hmem
      obtain ⟨dx, hdx⟩ := Option.isSome_iff_exists.mp hx
      obtain ⟨dy, hdy⟩ := Option.isSome_iff_exists.mp (hvxs y hy)
      rw [hsort] at ih'
      have hmax : firstMaxBy dv xs = some y := by
        rw [← ih']
        rfl
      have hcmp : compareByDate x y = (dy : Int) - (dx : Int) := by
        unfold compareByDate
        rw [hdx, hdy]
      have hdvx : dv x = dx := by unfold dv; rw [hdx]; rfl
      have hdvy : dv y = dy := by unfold dv; rw [hdy]; rfl
      rw [firstMaxBy_cons, hmax, jsInsert_cons]
      show (if compareByDate x y ≤ 0 then x :: y :: ys
          else y :: jsInsert compareByDate x ys).head? =
        if dv y > dv x then some y else some x
      by_cases hle : (dy : Int) - (dx : Int) ≤ 0
      · rw [if_pos (by rw [hcmp]; exact hle)]
        have hngt : ¬ dv y > dv x := by rw [hdvx, hdvy]; omega
        rw [if_neg hngt]
        rfl
      · rw [if_neg (by rw [hcmp]; exact hle)]
        have hgt : dv y > dv x := by rw [hdvx, hdvy]; omega
        rw [if_pos hgt]
        rfl

/-- The first maximum of a list whose earlier part is strictly below a pivot
element and whose later part is at most the pivot is the pivot itself. -/
theorem firstMaxBy_append {α : Type} (v : α → Nat) (l1 : List α) (k1 : α) (rest : List α)
    (h1 : ∀ a ∈ l1, v a < v k1) (h2 : ∀ a ∈ rest, v a ≤ v k1) :
    firstMaxBy v (l1 ++ k1 :: rest) = some k1 := by
  induction l1 with
  | nil =>
    show firstMaxBy v (k1 :: rest) = some k1
    rw [firstMaxBy_cons]
    cases hr : firstMaxBy v rest with
    | none => rfl
    | some z =>
      have hz : z ∈ rest := firstMaxBy_mem v rest z hr
      have hngt : ¬ v z > v k1 := by have := h2 z hz; omega
      show (if v z > v k1 then some z else some k1) = some k1
      rw [if_neg hngt]
  | cons x l1' ih =>
    show firstMaxBy v (x :: (l1' ++ k1 :: rest)) = some k1
    rw [firstMaxBy_cons, ih (fun a ha => h1 a (List.mem_cons_of_mem x ha))]
    have hgt : v k1 > v x := h1 x (List.mem_cons_self x l1')
    show (if v k1 > v x then some k1 else some x) = some k1
    rw [if_pos hgt]

/-- Reading back the (bucket, key) location just written returns the written
object. -/
theorem storeGet_storePut (st : Store) (bucketName filePath : String) (o : StoredObject) :
    storeGet (storePut st bucketName filePath o) bucketName filePath = some o := by
  unfold storeGet storePut
  rw [List.find?_cons_of_pos _ (by simp)]
  rfl

/-- On a key of length at least 14, slice(-14, -4) is the ten characters at
positions length - 14 through length - 5. -/
theorem jsSlice_of_long (k : String) (h : 14 ≤ k.length) :
    jsSlice k (-14) (-4) = String.mk ((k.data.drop (k.length - 14)).take 10) := by
  unfold jsSlice jsSliceIndex
  rw [if_pos (by norm_num : (-14 : Int) < 0), if_pos (by norm_num : (-4 : Int) < 0)]
  have h1 : max ((k.length : Int) + (-14)) 0 = (k.length : Int) + (-14) :=
    max_eq_left (by omega)
  have h2 : max ((k.length : Int) + (-4)) 0 = (k.length : Int) + (-4) :=
    max_eq_left (by omega)
  rw [h1, h2]
  have h3 : (k.length : Int) + (-4) - ((k.length : Int) + (-14)) = 10 := by ring
  rw [h3]
  have h4 : max (10 : Int) 0 = 10 := by norm_num
  rw [h4]
  have h5 : ((k.length : Int) + (-14)).toNat = k.length - 14 := by omega
  rw [h5]
  rfl

/-- On a key shorter than 14 characters, slice(-14, -4) starts at position 0
and keeps the first length - 4 characters (none when the length is below 4). -/
theorem jsSlice_of_short (k : String) (h : k.length < 14) :
    jsSlice k (-14) (-4) = String.mk (k.data.take (k.length - 4)) := by
  unfold jsSlice jsSliceIndex
  rw [if_pos (by norm_num : (-14 : Int) < 0), if_pos (by norm_num : (-4 : Int) < 0)]
  have h1 : max ((k.length : Int) + (-14)) 0 = 0 :=
    max_eq_right (by omega)
  rw [h1]
  rw [show ((0 : Int)).toNat = 0 from rfl, List.drop_zero, sub_zero]
  have h2 : max (max ((k.length : Int) + (-4)) 0) 0 = max ((k.length : Int) + (-4)) 0 :=
    max_eq_left (le_max_right _ _)
  rw [h2]
  have h3 : (max ((k.length : Int) + (-4)) 0).toNat = k.length - 4 := by
    rcases le_or_lt ((k.length : Int) + (-4)) 0 with h4 | h4
    · rw [max_eq_right h4]
      omega
    · rw [max_eq_left (le_of_lt h4)]
      omega
  rw [h3]

/-- C1: for every store, non-empty bucket and key, payload and content type,
a successful uploadToS3 followed by getFromS3AsBinary on the same (bucket,
key) - the response body delivering exactly the bytes then stored there, with
no intervening write - returns exactly the uploaded byte sequence. -/
theorem upload_getFromS3AsBinary_roundtrip (st : Store) (bucketName filePath : String)
    (data : Bytes) (mimeType : String) (chunks : List Bytes)
    (hbucket : bucketName ≠ "") (hkey : filePath ≠ "")
    (hget : storeGetBytes ((uploadToS3 PutOutcome.ok st bucketName filePath data mimeType).1)
      bucketName filePath = some chunks.flatten) :
    getFromS3AsBinary (GetOutcome.respond (GetBody.readable chunks)) = Except.ok data := by
  have h1 : storeGetBytes ((uploadToS3 PutOutcome.ok st bucketName filePath data mimeType).1)
      bucketName filePath = some data := by
    unfold uploadToS3 storeGetBytes
    rw [storeGet_storePut]
    rfl
  rw [h1] at hget
  have h2 : chunks.flatten = data := (Option.some.inj hget).symm
  show Except.ok chunks.flatten = Except.ok data
  rw [h2]

/-- C1 witness: a concrete upload of [1, 2, 3] read back in two chunks. -/
theorem upload_getFromS3AsBinary_roundtrip_witness :
    getFromS3AsBinary (GetOutcome.respond (GetBody.readable [[1, 2], [3]])) =
      Except.ok [1, 2, 3] :=
  upload_getFromS3AsBinary_roundtrip [] "bucket" "key" [1, 2, 3] "application/pdf"
    [[1, 2], [3]] (by decide) (by decide) rfl

/-- C2: on a stored object whose bytes are valid UTF-8 (re-encoding the
decoding reproduces them), getFromS3 returns the UTF-8 decoding of those
bytes; and on every outcome, getFromS3 equals UTF-8 decoding applied to the
result of getFromS3AsBinary. -/
theorem getFromS3_utf8_decode (chunks : List Bytes) (bs : Bytes)
    (hflat : chunks.flatten = bs)
    (hvalid : utf8Encode (utf8Decode bs) = bs) :
    getFromS3 (GetOutcome.respond (GetBody.readable chunks)) = Except.ok (utf8Decode bs) ∧
    ∀ o : GetOutcome, getFromS3 o = (getFromS3AsBinary o).map utf8Decode := by
  constructor
  · show Except.ok (utf8Decode chunks.flatten) = Except.ok (utf8Decode bs)
    rw [hflat]
  · intro o
    cases o with
    | respond body =>
      cases body with
      | readable c => rfl
      | notReadable => rfl
    | fail msg => rfl

/-- C2 witness: the bytes 104, 105 are valid UTF-8 and decode to the string
hi. -/
theorem getFromS3_utf8_decode_witness :
    getFromS3 (GetOutcome.respond (GetBody.readable [[104], [105]])) = Except.ok "hi" :=
  (getFromS3_utf8_decode [[104], [105]] [104, 105] rfl rfl).1

/-- C3: when the listing has no Contents, an empty Contents list, or only
keys without an underscore, getMostRecentFile returns the undefined sentinel
(a successful empty result), not an error. -/
theorem getMostRecentFile_none_sentinel (keys : List String)
    (hnone : ∀ k ∈ keys, keyHasUnderscore k = false) :
    getMostRecentFile (ListOutcome.respond none) = Except.ok none ∧
    getMostRecentFile (ListOutcome.respond (some [])) = Except.ok none ∧
    getMostRecentFile (ListOutcome.respond (some keys)) = Except.ok none := by
  refine ⟨rfl, rfl, ?_⟩
  cases keys with
  | nil => rfl
  | cons k0 ks =>
    show (if (k0 :: ks).length = 0 then Except.ok none
      else Except.ok (jsSort compareByDate ((k0 :: ks).filter keyHasUnderscore)).head?) =
      Except.ok none
    rw [if_neg (by simp)]
    have hf : (k0 :: ks).filter keyHasUnderscore = [] := by
      rw [List.filter_eq_nil_iff]
      intro a ha
      simp [hnone a ha]
    rw [hf]
    rfl

/-- C3 witness: a listing whose only key has no underscore. -/
theorem getMostRecentFile_none_sentinel_witness :
    getMostRecentFile (ListOutcome.respond none) = Except.ok none ∧
    getMostRecentFile (ListOutcome.respond (some [])) = Except.ok none ∧
    getMostRecentFile (ListOutcome.respond (some ["report.pdf"])) = Except.ok none :=
  getMostRecentFile_none_sentinel ["report.pdf"] (by decide)

/-- C4: when every key kept by the underscore filter carries a valid parsed
date, getMostRecentFile returns exactly the first filtered key attaining the
maximal date - keys without an underscore are excluded and the latest date
wins; in particular, on the listing report.pdf, report_2024-01-01.pdf,
report_2024-06-15.pdf the result is report_2024-06-15.pdf. -/
theorem getMostRecentFile_latest_date (keys : List String)
    (hv : ∀ a ∈ keys.filter keyHasUnderscore, (keyDate a).isSome = true) :
    getMostRecentFile (ListOutcome.respond (some keys)) =
      Except.ok (firstMaxBy dv (keys.filter keyHasUnderscore)) ∧
    getMostRecentFile (ListOutcome.respond
        (some ["report.pdf", "report_2024-01-01.pdf", "report_2024-06-15.pdf"])) =
      Except.ok (some "report_2024-06-15.pdf") := by
  constructor
  · cases keys with
    | nil => rfl
    | cons k0 ks =>
      show (if (k0 :: ks).length = 0 then Except.ok none
        else Except.ok (jsSort compareByDate ((k0 :: ks).filter keyHasUnderscore)).head?) =
        Except.ok (firstMaxBy dv ((k0 :: ks).filter keyHasUnderscore))
      rw [if_neg (by simp), jsSort_head_eq_firstMaxBy _ hv]
  · rfl

/-- C4 witness: the listing from the claim. -/
theorem getMostRecentFile_latest_date_witness :
    getMostRecentFile (ListOutcome.respond
        (some ["report.pdf", "report_2024-01-01.pdf", "report_2024-06-15.pdf"])) =
      Except.ok (some "report_2024-06-15.pdf") :=
  (getMostRecentFile_latest_date
    ["report.pdf", "report_2024-01-01.pdf", "report_2024-06-15.pdf"] (by decide)).2

/-- C5: on a key of length at least 14, the string handed to the date parser
is exactly the 10 characters at positions length - 14 through length - 5,
and the parsed sort date of the key is the parse of that substring. -/
theorem keyDate_fixed_position (k : String) (h : 14 ≤ k.length) :
    dateSliceStr k = String.mk ((k.data.drop (k.length - 14)).take 10) ∧
    keyDate k = parseJsDate (String.mk ((k.data.drop (k.length - 14)).take 10)) := by
  have h1 : dateSliceStr k = String.mk ((k.data.drop (k.length - 14)).take 10) :=
    jsSlice_of_long k h
  refine ⟨h1, ?_⟩
  show parseJsDate (dateSliceStr k) = _
  rw [h1]

/-- C5 witness: the 21-character key report_2024-01-01.pdf, whose extracted
date token is 2024-01-01. -/
theorem keyDate_fixed_position_witness :
    dateSliceStr "report_2024-01-01.pdf" =
      String.mk (("report_2024-01-01.pdf".data.drop ("report_2024-01-01.pdf".length - 14)).take 10) ∧
    dateSliceStr "report_2024-01-01.pdf" = "2024-01-01" :=
  ⟨(keyDate_fixed_position "report_2024-01-01.pdf" (by decide)).1,
    ((keyDate_fixed_position "report_2024-01-01.pdf" (by decide)).1).trans rfl⟩

/-- C6: when the qualifying keys all carry valid parsed dates and the keys
before k1 in listing order are strictly older while every later one (among
them k2, with the identical latest date) is no newer, getMostRecentFile
deterministically returns k1, the earliest-listed key with the latest date:
the stable sort breaks the tie by listing order. -/
theorem getMostRecentFile_tie_stable (keys l1 rest : List String) (k1 k2 : String)
    (hsplit : keys.filter keyHasUnderscore = l1 ++ k1 :: rest)
    (hv : ∀ a ∈ keys.filter keyHasUnderscore, (keyDate a).isSome = true)
    (hlt : ∀ a ∈ l1, dv a < dv k1)
    (hle : ∀ a ∈ rest, dv a ≤ dv k1)
    (hk2 : k2 ∈ rest) (htie : keyDate k2 = keyDate k1) :
    getMostRecentFile (ListOutcome.respond (some keys)) = Except.ok (some k1) := by
  cases keys with
  | nil => simp at hsplit
  | cons k0 ks =>
    show (if (k0 :: ks).length = 0 then Except.ok none
      else Except.ok (jsSort compareByDate ((k0 :: ks).filter keyHasUnderscore)).head?) =
      Except.ok (some k1)
    rw [if_neg (by simp), jsSort_head_eq_firstMaxBy _ hv, hsplit,
      firstMaxBy_append dv l1 k1 rest hlt hle]

/-- C6 witness: two keys with the identical date 2024-06-15; the first listed
one is returned. -/
theorem getMostRecentFile_tie_stable_witness :
    getMostRecentFile (ListOutcome.respond
        (some ["a_2024-06-15.pdf", "b_2024-06-15.pdf"])) =
      Except.ok (some "a_2024-06-15.pdf") :=
  getMostRecentFile_tie_stable ["a_2024-06-15.pdf", "b_2024-06-15.pdf"] []
    ["b_2024-06-15.pdf"] "a_2024-06-15.pdf" "b_2024-06-15.pdf" (by decide) (by decide)
    (by decide) (by decide) (by decide) (by decide)

/-- C7: when the send of the upload rejects, uploadToS3 throws an error whose
message is the fixed upload text followed by the underlying cause message
(so it includes the cause), and the store is unchanged: no partial write. -/
theorem uploadToS3_error_wraps (st : Store) (bucketName filePath : String)
    (data : Bytes) (mimeType msg : String) :
    (uploadToS3 (PutOutcome.err msg) st bucketName filePath data mimeType).2 =
      Except.error ("Error uploading to S3: " ++ msg) ∧
    (uploadToS3 (PutOutcome.err msg) st bucketName filePath data mimeType).1 = st :=
  ⟨rfl, rfl⟩

/-- C8: a response body that is not a Readable makes both download paths
throw the wrapped retrieval error - not a crash and not an empty result. -/
theorem download_unexpected_body_wrapped :
    getFromS3 (GetOutcome.respond GetBody.notReadable) =
      Except.error "Error retrieving from S3: Unexpected response body type" ∧
    getFromS3AsBinary (GetOutcome.respond GetBody.notReadable) =
      Except.error "Error retrieving from S3: Unexpected response body type" :=
  ⟨rfl, rfl⟩

/-- C9: getMostRecentFile fails exactly when the listing send rejects, and
then the listing error is passed through unmodified; every listing response
produces a successful result. -/
theorem getMostRecentFile_error_passthrough :
    (∀ msg : String, getMostRecentFile (ListOutcome.fail msg) = Except.error msg) ∧
    (∀ resp : Option (List String), ∃ r : Option String,
      getMostRecentFile (ListOutcome.respond resp) = Except.ok r) := by
  constructor
  · intro msg
    rfl
  · intro resp
    cases resp with
    | none => exact ⟨none, rfl⟩
    | some contents =>
      cases contents with
      | nil => exact ⟨none, rfl⟩
      | cons k0 ks =>
        refine ⟨(jsSort compareByDate ((k0 :: ks).filter keyHasUnderscore)).head?, ?_⟩
        show (if (k0 :: ks).length = 0 then Except.ok none
          else Except.ok (jsSort compareByDate ((k0 :: ks).filter keyHasUnderscore)).head?) = _
        rw [if_neg (by simp)]

/-- C10: a listed underscore key shorter than 14 characters is neither
skipped nor an error source: the listing still yields a successful non-empty
result, and the key is sorted by the clamped slice, the characters from
position 0 up to length - 4, which is shorter than the 10-character date
token the convention assumes. -/
theorem getMostRecentFile_short_key_clamped (keys : List String) (k : String)
    (hmem : k ∈ keys) (hund : keyHasUnderscore k = true) (hlen : k.length < 14) :
    (∃ r, getMostRecentFile (ListOutcome.respond (some keys)) = Except.ok (some r)) ∧
    dateSliceStr k = String.mk (k.data.take (k.length - 4)) ∧
    (dateSliceStr k).length < 10 := by
  refine ⟨?_, jsSlice_of_short k hlen, ?_⟩
  · cases keys with
    | nil => exact absurd hmem (List.not_mem_nil k)
    | cons k0 ks =>
      have hkf : k ∈ (k0 :: ks).filter keyHasUnderscore := List.mem_filter.mpr ⟨hmem, hund⟩
      cases hsort : jsSort compareByDate ((k0 :: ks).filter keyHasUnderscore) with
      | nil =>
        exfalso
        have hmem2 := (mem_jsSort compareByDate k _).mpr hkf
        rw [hsort] at hmem2
        exact absurd hmem2 (List.not_mem_nil k)
      | cons r rs =>
        refine ⟨r, ?_⟩
        show (if (k0 :: ks).length = 0 then Except.ok none
          else Except.ok (jsSort compareByDate ((k0 :: ks).filter keyHasUnderscore)).head?) =
          Except.ok (some r)
        rw [if_neg (by simp), hsort]
        rfl
  · have h1 : dateSliceStr k = String.mk (k.data.take (k.length - 4)) :=
      jsSlice_of_short k hlen
    rw [h1]
    calc (String.mk (k.data.take (k.length - 4))).length
        = (k.data.take (k.length - 4)).length := rfl
      _ ≤ k.length - 4 := List.length_take_le _ _
      _ < 10 := by omega

/-- C10 witness: the 7-character underscore key a_b.pdf, whose clamped slice
is the 3-character string a_b. -/
theorem getMostRecentFile_short_key_clamped_witness :
    (∃ r, getMostRecentFile (ListOutcome.respond (some ["a_b.pdf"])) =
      Except.ok (some r)) ∧
    dateSliceStr "a_b.pdf" = String.mk ("a_b.pdf".data.take ("a_b.pdf".length - 4)) ∧
    (dateSliceStr "a_b.pdf").length < 10 :=
  getMostRecentFile_short_key_clamped ["a_b.pdf"] "a_b.pdf" (by decide) (by decide)
    (by decide)

end S3Service
